import Mathlib

/-!
# golangci-lint: generated-file suppression and the govet adapter

A shallow embedding of

* `pkg/result/processors/autogenerated_exclude.go` (the processor
  `AutogeneratedExclude`: `shouldPassIssue`, `isGeneratedFileLax`,
  `isGeneratedFileStrict`, `getComments`, `isGoFile`, `Process`), and
* `pkg/golinters/govet.go` (`govet.Name`, `govet.Run`).

Conventions of the embedding.

* A Go `string` is a Lean `String`; the helper functions work on its list of
  code points (`String.data`). Only valid UTF-8 strings are represented.
* A Go result pair `(v, err)` is a Lean pair `(v, Option String)`, the option
  holding the message of a non-nil error.
* The receiver `*AutogeneratedExclude` is passed explicitly and the updated
  receiver is returned with the result (`Outcome.proc`).
* The file system together with `parser.ParseFile` is the field `ParseFile`
  of `Env`; the Unicode lower-case table beyond ASCII is the field
  `lowerTable` of `Env`.
* Debug logging (`debugf`) has no effect on results and is left out.
-/

namespace GolangciLint

/-! ## Strings (package `strings`, `unicode`) -/

/-- Substring test on code-point lists: `sub` occurs in `s` as a contiguous block. -/
def containsL : List Char → List Char → Bool
  | [], sub => sub.isEmpty
  | c :: cs, sub => sub.isPrefixOf (c :: cs) || containsL cs sub

/-- Go `strings.Contains(s, substr)`. -/
def strings.Contains (s substr : String) : Bool :=
  containsL s.data substr.data

/-- The ASCII branch of Go `unicode.ToLower`: `'A'..'Z'` are shifted by `'a' - 'A'`. -/
def asciiLower (r : Char) : Char :=
  if 'A'.toNat ≤ r.toNat ∧ r.toNat ≤ 'Z'.toNat then Char.ofNat (r.toNat + 32) else r

/-- Go `unicode.ToLower(r)`: runes up to `MaxASCII` are handled directly, the others
are looked up in the Unicode case table `tbl`. -/
def unicode.ToLower (tbl : Char → Char) (r : Char) : Char :=
  if r.toNat ≤ 127 then asciiLower r else tbl r

/-- Go `strings.ToLower(s)`: every rune is mapped by `unicode.ToLower`. -/
def strings.ToLower (tbl : Char → Char) (s : String) : String :=
  ⟨s.data.map (unicode.ToLower tbl)⟩

/-- Go `unicode.IsSpace(r)`: the Latin-1 cases and the `White_Space` table. -/
def unicode.IsSpace (r : Char) : Bool :=
  let n := r.toNat
  if n ≤ 255 then
    n = 9 || n = 10 || n = 11 || n = 12 || n = 13 || n = 32 || n = 133 || n = 160
  else
    n = 5760 || (8192 ≤ n && n ≤ 8202) || n = 8232 || n = 8233 || n = 8239 || n = 8287
      || n = 12288

/-- Go `strings.TrimSpace` on code-point lists: leading and trailing white space removed. -/
def trimSpaceL (s : List Char) : List Char :=
  ((s.dropWhile unicode.IsSpace).reverse.dropWhile unicode.IsSpace).reverse

/-- Go `strings.TrimSpace(s)`. -/
def strings.TrimSpace (s : String) : String :=
  ⟨trimSpaceL s.data⟩

/-- Go `strings.Join(elems, sep)` on code-point lists. -/
def joinL (sep : List Char) : List (List Char) → List Char
  | [] => []
  | [a] => a
  | a :: b :: rest => a ++ sep ++ joinL sep (b :: rest)

/-- Go `strings.Join(elems, sep)`. -/
def strings.Join (elems : List String) (sep : String) : String :=
  ⟨joinL sep.data (elems.map String.data)⟩

/-- Go `strings.Split(s, "\n")` on code-point lists (the empty string gives one empty piece). -/
def splitNewline : List Char → List (List Char)
  | [] => [[]]
  | c :: cs =>
    if c = '\n' then [] :: splitNewline cs
    else
      match splitNewline cs with
      | [] => [[c]]
      | l :: ls => (c :: l) :: ls

/-! ## Paths (package `path/filepath`, separator `/`) -/

/-- The backwards scan of `filepath.Ext`: `rev` is the part of the path not yet visited,
reversed; `acc` is the part already visited. -/
def extScan : List Char → List Char → List Char
  | [], _ => []
  | c :: rest, acc =>
    if c = '/' then []
    else if c = '.' then '.' :: acc
    else extScan rest (c :: acc)

/-- Go `filepath.Ext(path)`: the suffix beginning at the final dot in the final element
of the path; empty if there is no dot. -/
def filepath.Ext (path : String) : String :=
  ⟨extScan path.data.reverse []⟩

/-- Go `filepath.Base` on code-point lists. -/
def baseL (path : List Char) : List Char :=
  if path = [] then ['.']
  else
    -- strip trailing slashes
    let stripped := (path.reverse.dropWhile (fun c => c = '/')).reverse
    -- find the last element
    let last := (stripped.reverse.takeWhile (fun c => c ≠ '/')).reverse
    -- if empty now, it had only slashes
    if last = [] then ['/'] else last

/-- Go `filepath.Base(path)`: the last element of the path. -/
def filepath.Base (path : String) : String :=
  ⟨baseL path.data⟩

/-! ## The issue model (package `result`) -/

/-- Modelled from the spec: the type `result.Issue` is declared outside the given sources.
It carries the attributes the two source files read and write: the originating checker,
the message text, the file path and the line number. -/
structure Issue where
  FromLinter : String
  Text : String
  File : String
  LineNumber : Int
  deriving DecidableEq

/-- Modelled from the spec: the accessor `Issue.FilePath()` is declared outside the given
sources; it returns the file path attribute of the issue. -/
def Issue.FilePath (i : Issue) : String := i.File

/-- Modelled from the spec: the type `result.Result` is declared outside the given sources.
An adapter returns a finite sequence of issues; `govet.Run` fills the field `Issues`. -/
structure Result where
  Issues : List Issue
  deriving DecidableEq

/-! ## Parsed files (package `go/ast`) -/

/-- The lexical shape of a comment text as delivered by the Go scanner: either `//` followed
by text without a newline, or `/*` ... `*/`. -/
def isCommentText (t : List Char) : Bool :=
  match t with
  | a :: b :: r =>
    a == '/' && ((b == '/' && r.all (fun c => c != '\n')) ||
      (b == '*' && ['*', '/'].isSuffixOf r))
  | _ => false

/-- Go `ast.Comment`: the position of the leading slash and the comment text, which
includes the comment markers. -/
structure ast.Comment where
  Slash : Nat
  Text : String
  lexed : isCommentText Text.data = true

/-- Go `ast.CommentGroup`: a sequence of comments, `len(List) > 0`. -/
structure ast.CommentGroup where
  List : List ast.Comment
  nonempty : List ≠ []

/-- Go `(*ast.CommentGroup).Pos()`: the position of the first comment of the group. -/
def ast.CommentGroup.Pos (g : ast.CommentGroup) : Nat :=
  (g.List.head g.nonempty).Slash

/-- Go `ast.File`, restricted to the fields read by the processor: the position of the
`package` keyword and the comment groups of the file. -/
structure ast.File where
  Package : Nat
  Comments : List ast.CommentGroup

/-- Go `isWhitespace` of `go/ast`. -/
def ast.isWhitespace (ch : Char) : Bool :=
  ch = ' ' || ch = '\t' || ch = '\n' || ch = '\r'

/-- Go `stripTrailingWhitespace` of `go/ast`. -/
def ast.stripTrailingWhitespace (s : List Char) : List Char :=
  (s.reverse.dropWhile ast.isWhitespace).reverse

/-- The character class `[a-z0-9]` of `isDirective`. -/
def ast.isLowerAlnum (b : Char) : Bool :=
  ('a'.toNat ≤ b.toNat && b.toNat ≤ 'z'.toNat) || ('0'.toNat ≤ b.toNat && b.toNat ≤ '9'.toNat)

/-- Go `isDirective` of `go/ast` (the `//` has been removed): `line `, `extern `, `export `
or the shape `[a-z0-9]+:[a-z0-9]`. -/
def ast.isDirective (c : List Char) : Bool :=
  if "line ".data.isPrefixOf c || "extern ".data.isPrefixOf c || "export ".data.isPrefixOf c then
    true
  else
    let head := c.takeWhile (fun b => b ≠ ':')
    match c.dropWhile (fun b => b ≠ ':') with
    | _ :: next :: _ => !head.isEmpty && head.all ast.isLowerAlnum && ast.isLowerAlnum next
    | _ => false

/-- The comment-marker switch of `(*ast.CommentGroup).Text()` for one comment text `c`:
the text without its markers, or `none` when the comment is a directive and is skipped. -/
def ast.commentBody (c : List Char) : Option (List Char) :=
  match c with
  | _ :: m :: r =>
    if m = '/' then
      match r with
      | [] => some []
      | h :: t =>
        if h = ' ' then some t
        else if ast.isDirective r then none
        else some r
    else if m = '*' then some (r.take (r.length - 2))
    else some c
  | _ => some c

/-- The lines one comment contributes in `Text()`: split on newlines, trailing white space
stripped. -/
def ast.commentLines (c : List Char) : List (List Char) :=
  match ast.commentBody c with
  | none => []
  | some body => (splitNewline body).map ast.stripTrailingWhitespace

/-- The first loop of `Text()`: the lines of all comments of the group, in order. -/
def ast.rawLines : List ast.Comment → List (List Char)
  | [] => []
  | c :: cs => ast.commentLines c.Text.data ++ ast.rawLines cs

/-- One step of the blank-line compaction of `Text()`: a line is kept when it is not blank
or when the last line kept so far is not blank. -/
def ast.compactStep (kept : List (List Char)) (line : List Char) : List (List Char) :=
  if !line.isEmpty || (match kept.getLast? with
      | some l => !l.isEmpty
      | none => false) then kept ++ [line]
  else kept

/-- Go `(*ast.CommentGroup).Text()`: the text of the comment group, comment markers removed,
leading blank lines removed, runs of blank lines collapsed, with a final newline. -/
def ast.CommentGroup.Text (g : ast.CommentGroup) : String :=
  let lines := (ast.rawLines g.List).foldl ast.compactStep []
  let lines :=
    match lines.getLast? with
    | some l => if !l.isEmpty then lines ++ [[]] else lines
    | none => lines
  ⟨joinL ['\n'] lines⟩

/-! ## The environment -/

/-- What the processor reads from outside: `ParseFile path` is the result of
`parser.ParseFile(fset, path, nil, PackageClauseOnly|ParseComments)` on the current file
system (a parsed file, or the message of the error), and `lowerTable` is the Unicode
lower-case mapping for runes above `MaxASCII`. -/
structure Env where
  ParseFile : String → Except String ast.File
  lowerTable : Char → Char

/-! ## The processor `AutogeneratedExclude` -/

/-- The marker `genCodeGenerated`. -/
def genCodeGenerated : String := "code generated"

/-- The marker `genDoNotEdit`. -/
def genDoNotEdit : String := "do not edit"

/-- The marker `genAutoFile` (easyjson). -/
def genAutoFile : String := "autogenerated file"

/-- The cached verdict for one file. -/
structure fileSummary where
  generated : Bool
  deriving DecidableEq

/-- The processor: the mode flag and the per-file cache `map[string]*fileSummary` (a path
without an entry maps to `none`). The field `strictPattern` always holds the pattern compiled
by the constructor, see `strictPattern.MatchString`. -/
structure AutogeneratedExclude where
  strict : Bool
  fileSummaryCache : String → Option fileSummary

/-- The regular expression of the constructor, `^// Code generated .* DO NOT EDIT\.$`, as a
matcher: the text starts with `// Code generated `, ends with ` DO NOT EDIT.` (the two not
overlapping) and has no newline in between, since `.` does not match a newline. -/
def strictPattern.MatchString (text : String) : Bool :=
  let t := text.data
  "// Code generated ".data.isPrefixOf t &&
    (let r := t.drop "// Code generated ".length
     " DO NOT EDIT.".data.isSuffixOf r &&
       (r.take (r.length - " DO NOT EDIT.".length)).all (fun c => c != '\n'))

/-- The constructor `NewAutogeneratedExclude(strict)`: the cache starts empty. -/
def NewAutogeneratedExclude (strict : Bool) : AutogeneratedExclude :=
  { strict := strict, fileSummaryCache := fun _ => none }

/-- The map assignment `p.fileSummaryCache[path] = fs`. -/
def AutogeneratedExclude.store (p : AutogeneratedExclude) (path : String) (fs : fileSummary) :
    AutogeneratedExclude :=
  { p with fileSummaryCache := fun q => if q = path then some fs else p.fileSummaryCache q }

/-- Go `isGoFile(name)`. -/
def isGoFile (name : String) : Bool :=
  filepath.Ext name = ".go"

/-- Go `isGeneratedFileLax(doc)`: the lower-cased doc is searched for each marker in turn. -/
def isGeneratedFileLax (env : Env) (doc : String) : Bool :=
  let markers := [genCodeGenerated, genDoNotEdit, genAutoFile]
  let doc := strings.ToLower env.lowerTable doc
  markers.any (fun marker => strings.Contains doc marker)

/-- The loop of `isGeneratedFileStrict` over `file.Comments`: a group positioned after the
package clause ends the search with `false`; a matching line ends it with `true`. -/
def strictScan ( pkg : Nat) : List ast.CommentGroup → Bool
  | [] => false
  | comment :: rest =>
    if comment.Pos > pkg then false
    else if comment.List.any (fun line => strictPattern.MatchString line.Text) then true
    else strictScan pkg rest

/-- The part of `isGeneratedFileStrict` after a successful parse (the parser then returns a
non-nil file, so of the test `file == nil || len(file.Comments) == 0` the second half
remains). -/
def isGeneratedFileStrictParsed (file : ast.File) : Bool :=
  if file.Comments.length = 0 then false
  else strictScan file.Package file.Comments

/-- Go `isGeneratedFileStrict(filePath)`. -/
def isGeneratedFileStrict (env : Env) (filePath : String) : Bool × Option String :=
  match env.ParseFile filePath with
  | .error err => (false, some ("failed to parse file: " ++ err))
  | .ok file => (isGeneratedFileStrictParsed file, none)

/-- The part of `getComments` after a successful parse: the trimmed text of every comment
group, joined by newlines. -/
def commentsDoc (file : ast.File) : String :=
  strings.Join (file.Comments.map (fun c => strings.TrimSpace c.Text)) "\n"

/-- Go `getComments(filePath)`. -/
def getComments (env : Env) (filePath : String) : String × Option String :=
  match env.ParseFile filePath with
  | .error err => ("", some ("failed to parse file: " ++ err))
  | .ok file => (commentsDoc file, none)

/-- The result of one call of `shouldPassIssue`: the two return values, the receiver after
the call, and the paths handed to `parser.ParseFile` during the call. -/
structure Outcome where
  pass : Bool
  err : Option String
  proc : AutogeneratedExclude
  parsed : List String

/-- Go `(*AutogeneratedExclude).shouldPassIssue(issue)`. -/
def shouldPassIssue (env : Env) (p : AutogeneratedExclude) (issue : Issue) : Outcome :=
  if issue.FromLinter = "typecheck" then
    ⟨true, none, p, []⟩
  else if filepath.Base issue.FilePath = "go.mod" then
    ⟨true, none, p, []⟩
  else if !isGoFile issue.FilePath then
    ⟨false, none, p, []⟩
  else
    match p.fileSummaryCache issue.FilePath with
    | some fs => ⟨!fs.generated, none, p, []⟩
    | none =>
      let p1 := p.store issue.FilePath ⟨false⟩
      if issue.FilePath = "" then
        ⟨false, some "no file path for issue", p1, []⟩
      else if p.strict then
        match isGeneratedFileStrict env issue.FilePath with
        | (generated, some err) =>
          ⟨false, some ("failed to get doc of file " ++ issue.FilePath ++ ": " ++ err),
            p1.store issue.FilePath ⟨generated⟩, [issue.FilePath]⟩
        | (generated, none) =>
          ⟨!generated, none, p1.store issue.FilePath ⟨generated⟩, [issue.FilePath]⟩
      else
        match getComments env issue.FilePath with
        | (_, some err) =>
          ⟨false, some ("failed to get doc of file " ++ issue.FilePath ++ ": " ++ err),
            p1, [issue.FilePath]⟩
        | (doc, none) =>
          let generated := isGeneratedFileLax env doc
          ⟨!generated, none, p1.store issue.FilePath ⟨generated⟩, [issue.FilePath]⟩

/-- Modelled from the spec: the helper `filterIssuesErr` is declared outside the given
sources. A stage filters by inclusion: the issues are visited in order, an issue is kept
when the filter accepts it, and the first error of the filter ends the pass with that error
and no issues. `ret` is the list of issues kept so far. -/
def filterIssuesErr {σ : Type} (filter : σ → Issue → Bool × Option String × σ) :
    σ → List Issue → List Issue → List Issue × Option String × σ
  | s, [], ret => (ret, none, s)
  | s, i :: rest, ret =>
    match filter s i with
    | (_, some err, s1) => ([], some err, s1)
    | (ok, none, s1) => filterIssuesErr filter s1 rest (if ok then ret ++ [i] else ret)

/-- Go `(*AutogeneratedExclude).Process(issues)`. -/
def Process (env : Env) (p : AutogeneratedExclude) (issues : List Issue) :
    List Issue × Option String × AutogeneratedExclude :=
  filterIssuesErr
    (fun s i => ((shouldPassIssue env s i).pass, (shouldPassIssue env s i).err,
      (shouldPassIssue env s i).proc))
    p issues []

/-! ## The govet adapter (package `golinters`) -/

/-- Go `token.Position`, restricted to the fields read by the adapter. -/
structure token.Position where
  Filename : String
  Line : Int
  deriving DecidableEq

/-- A diagnostic of the wrapped vet analyzer (`govetAPI.Issue`): position and message. -/
structure govetAPI.Issue where
  Pos : token.Position
  Message : String
  deriving DecidableEq

/-- Modelled from the spec: the configuration types are declared outside the given sources.
This is the section `cfg.Govet` of the run configuration, with the per-checker parameter the
adapter reads. -/
structure config.Govet where
  CheckShadowing : Bool

/-- Modelled from the spec: the run configuration `config.Run` is declared outside the given
sources; it is restricted to the fields read by the adapter. -/
structure config.Run where
  Paths : List String
  BuildTags : List String
  Govet : config.Govet

/-- Go `govet.Name()`. -/
def govet.Name : String := "govet"

/-- Go `govet.Run(ctx, exec, cfg)`. The wrapped analyzer `govetAPI.Run` is the argument `api`;
on success the result is `some` of the collected issues, on failure there is no result. -/
def govet.Run (api : List String → List String → Bool → List govetAPI.Issue × Option String)
    (cfg : config.Run) : Option Result × Option String :=
  match api cfg.Paths cfg.BuildTags cfg.Govet.CheckShadowing with
  | (_, some err) => (none, some err)
  | (issues, none) =>
    (some ⟨issues.foldl (fun res i =>
        res ++ [{ File := i.Pos.Filename
                  LineNumber := i.Pos.Line
                  Text := i.Message
                  FromLinter := govet.Name }]) []⟩, none)

/-! ## Sample inputs -/

/-- The parse result of `test/testdata/exhaustive_generated.go` with
`PackageClauseOnly|ParseComments`: the two directive lines before the package clause, and
the two comment groups between the package clause and the first declaration. -/
def testdata.exhaustive_generated : ast.File :=
  { Package := 69
    Comments :=
      [ ⟨[⟨1, "//golangcitest:args -Eexhaustive", rfl⟩,
          ⟨34, "//golangcitest:expected_exitcode 0", rfl⟩], by simp⟩,
        ⟨[⟨87, "// Code generated by some program. DO NOT EDIT.", rfl⟩], by simp⟩,
        ⟨[⟨136, "// Should not report missing cases in the switch statement below, because this", rfl⟩,
          ⟨215, "// is a generated file as indicated by the above comment", rfl⟩,
          ⟨272, "// (golang.org/s/generatedcode), and check-generated setting is false.", rfl⟩],
          by simp⟩ ] }

/-- A file whose first line is the marker comment, followed by the package clause. -/
def testdata.generated_header : ast.File :=
  { Package := 39
    Comments := [⟨[⟨1, "// Code generated by tool. DO NOT EDIT.", rfl⟩], by simp⟩] }

/-- A file system with three files: `gen.go` (marker before the package clause),
`exhaustive_generated.go` (marker after the package clause) and `broken.go`, which does not
parse; no other file exists. Runes above ASCII are left unchanged by the lower-case table. -/
def sampleEnv : Env :=
  { ParseFile := fun path =>
      if path = "gen.go" then .ok testdata.generated_header
      else if path = "exhaustive_generated.go" then .ok testdata.exhaustive_generated
      else if path = "broken.go" then .error "broken.go:1:1: expected package clause, found EOF"
      else .error ("open " ++ path ++ ": no such file or directory")
    lowerTable := id }

/-- A file system on which `broken.go` has been repaired since `sampleEnv`. -/
def repairedEnv : Env :=
  { ParseFile := fun path =>
      if path = "broken.go" then .ok testdata.generated_header
      else sampleEnv.ParseFile path
    lowerTable := id }

/-- An issue of the given checker against the given file. -/
def sampleIssue ( linter file : String) : Issue :=
  { FromLinter := linter, Text := "declaration of err shadows declaration", File := file,
    LineNumber := 12 }

/-- A vet analyzer that reports two diagnostics. -/
def sampleVet : List String → List String → Bool → List govetAPI.Issue × Option String :=
  fun _ _ _ => ([⟨⟨"a.go", 3⟩, "unreachable code"⟩, ⟨⟨"b.go", 7⟩, "self-assignment of x to x"⟩], none)

/-- A vet analyzer that fails. -/
def failingVet : List String → List String → Bool → List govetAPI.Issue × Option String :=
  fun _ _ _ => ([], some "cannot load packages")

/-- A run configuration. -/
def sampleCfg : config.Run :=
  { Paths := ["./..."], BuildTags := [], Govet := ⟨true⟩ }

/-! ## Lemmas on the filtering pass -/

theorem filterIssuesErr_keeps {σ : Type} (filter : σ → Issue → Bool × Option String × σ)
    (issues : List Issue) :
    ∀ (s : σ) (ret : List Issue), (filterIssuesErr filter s issues ret).2.1 = none →
      (∀ i ∈ ret, i ∈ (filterIssuesErr filter s issues ret).1) ∧
      (∀ i ∈ issues, (∀ t, (filter t i).1 = true) →
        i ∈ (filterIssuesErr filter s issues ret).1) := by
  induction issues with
  | nil =>
    intro s ret _
    simp [filterIssuesErr]
  | cons x rest ih =>
    intro s ret h
    unfold filterIssuesErr at h ⊢
    rcases hf : filter s x with ⟨ok, e, s1⟩
    rw [hf] at h
    cases e with
    | some err => simp at h
    | none =>
      simp only at h ⊢
      obtain ⟨h1, h2⟩ := ih s1 (if ok = true then ret ++ [x] else ret) h
      refine ⟨fun i hi => h1 i ?_, fun i hi hall => ?_⟩
      · split <;> simp [hi]
      · rcases List.mem_cons.1 hi with rfl | hi
        · have hok : ok = true := by simpa [hf] using hall s
          exact h1 i (by simp [hok])
        · exact h2 i hi hall

theorem filterIssuesErr_sound {σ : Type} (filter : σ → Issue → Bool × Option String × σ)
    (issues : List Issue) :
    ∀ (s : σ) (ret : List Issue), (filterIssuesErr filter s issues ret).2.1 = none →
      ∀ i ∈ (filterIssuesErr filter s issues ret).1,
        i ∈ ret ∨ (i ∈ issues ∧ ∃ t, (filter t i).1 = true) := by
  induction issues with
  | nil =>
    intro s ret _ i hi
    simpa [filterIssuesErr] using hi
  | cons x rest ih =>
    intro s ret h i hi
    unfold filterIssuesErr at h hi
    rcases hf : filter s x with ⟨ok, e, s1⟩
    rw [hf] at h hi
    cases e with
    | some err => simp at h
    | none =>
      simp only at h hi
      rcases ih s1 _ h i hi with hret | ⟨hmem, t, ht⟩
      · by_cases hok : ok = true
        · rw [if_pos hok] at hret
          rcases List.mem_append.1 hret with hr | hx
          · exact Or.inl hr
          · have hix : i = x := by simpa using hx
            exact Or.inr ⟨by simp [hix], s, by simp [hix, hf, hok]⟩
        · rw [if_neg hok] at hret
          exact Or.inl hret
      · exact Or.inr ⟨List.mem_cons_of_mem _ hmem, t, ht⟩

/-! ## Lemmas on paths -/

theorem baseL_in_dir (dir : List Char) : baseL (dir ++ "/go.mod".data) = "go.mod".data := by
  have hne : dir ++ "/go.mod".data ≠ [] := by simp
  have hrev : (dir ++ "/go.mod".data).reverse = 'd' :: 'o' :: 'm' :: '.' :: 'o' :: 'g' :: '/' :: dir.reverse := by
    simp
  unfold baseL
  rw [if_neg hne]
  simp only [hrev]
  simp [List.dropWhile, List.takeWhile]

theorem isGoFile_empty : isGoFile "" = false := by decide

theorem base_empty : filepath.Base "" ≠ "go.mod" := by decide

/-! ## A `.go` file is never `go.mod` -/

theorem extScan_length (rev : List Char) : ∀ acc : List Char,
    extScan rev acc = [] ∨ acc.length + 1 ≤ (extScan rev acc).length := by
  induction rev with
  | nil => intro acc; left; rfl
  | cons c rest ih =>
    intro acc
    rw [extScan]
    by_cases h1 : c = '/'
    · left; simp [h1]
    · rw [if_neg h1]
      by_cases h2 : c = '.'
      · right; simp [h2]
      · rw [if_neg h2]
        rcases ih (c :: acc) with h | h
        · exact Or.inl h
        · right
          simp only [List.length_cons] at h
          omega

theorem extScan_go (rev : List Char) (h : extScan rev [] = ".go".data) :
    ∃ rest, rev = 'o' :: 'g' :: '.' :: rest := by
  have hlen : (extScan rev []).length = 3 := by rw [h]; rfl
  match rev with
  | [] => simp [extScan] at hlen
  | [c] =>
    rw [extScan] at hlen
    split_ifs at hlen <;> simp [extScan] at hlen
  | [c, c2] =>
    simp only [extScan] at hlen
    split_ifs at hlen <;> simp at hlen
  | c :: c2 :: c3 :: rest =>
    simp only [extScan] at h hlen
    split_ifs at h hlen with h1 h2 h3 h4 h5 h6
    all_goals first
      | (simp at hlen; done)
      | (rcases extScan_length rest [c3, c2, c] with h0 | h0
         · rw [h0] at hlen; simp at hlen
         · rw [hlen] at h0; simp at h0)
      | (have h7 : ['.', c2, c] = ['.', 'g', 'o'] := h
         simp only [List.cons.injEq, and_true, true_and] at h7
         exact ⟨rest, by rw [h7.1, h7.2, h6]⟩)

theorem base_ne_gomod_of_isGoFile (path : String) (hgo : isGoFile path = true) :
    filepath.Base path ≠ "go.mod" := by
  have hext : extScan path.data.reverse [] = ".go".data := by
    have h := hgo
    simp only [isGoFile, decide_eq_true_eq, filepath.Ext] at h
    exact congrArg String.data h
  obtain ⟨rest, hrev⟩ := extScan_go _ hext
  intro hbase
  have hb : baseL path.data = "go.mod".data := congrArg String.data hbase
  have hne : path.data ≠ [] := by
    intro h0
    rw [h0] at hrev
    simp at hrev
  unfold baseL at hb
  rw [if_neg hne] at hb
  simp only [hrev, List.reverse_reverse] at hb
  simp only [List.dropWhile, List.takeWhile] at hb
  simp at hb
  have hlast := congrArg List.getLast? hb
  simp at hlast

/-! ## Lemmas on `shouldPassIssue` -/

theorem shouldPassIssue_typecheck (env : Env) (p : AutogeneratedExclude) (issue : Issue)
    (h : issue.FromLinter = "typecheck") :
    shouldPassIssue env p issue = ⟨true, none, p, []⟩ := by
  simp [shouldPassIssue, h]

theorem shouldPassIssue_gomod (env : Env) (p : AutogeneratedExclude) (issue : Issue)
    (h : filepath.Base issue.FilePath = "go.mod") :
    shouldPassIssue env p issue = ⟨true, none, p, []⟩ := by
  unfold shouldPassIssue
  split
  · rfl
  · simp [h]

theorem shouldPassIssue_nonGo (env : Env) (p : AutogeneratedExclude) (issue : Issue)
    (h1 : issue.FromLinter ≠ "typecheck") (h2 : filepath.Base issue.FilePath ≠ "go.mod")
    (h3 : isGoFile issue.FilePath = false) :
    shouldPassIssue env p issue = ⟨false, none, p, []⟩ := by
  unfold shouldPassIssue
  rw [if_neg h1, if_neg h2]
  simp [h3]

/-- When the cache holds an entry for the file of a Go-file issue, the answer is read from
the entry: no file is parsed and the receiver is unchanged. -/
theorem shouldPassIssue_cached (env : Env) (p : AutogeneratedExclude) (issue : Issue)
    (fs : fileSummary)
    (h1 : issue.FromLinter ≠ "typecheck") (h2 : filepath.Base issue.FilePath ≠ "go.mod")
    (h3 : isGoFile issue.FilePath = true) (hc : p.fileSummaryCache issue.FilePath = some fs) :
    shouldPassIssue env p issue = ⟨!fs.generated, none, p, []⟩ := by
  unfold shouldPassIssue
  rw [if_neg h1, if_neg h2]
  simp [h3, hc]

theorem store_lookup (p : AutogeneratedExclude) (path : String) (fs : fileSummary) :
    (p.store path fs).fileSummaryCache path = some fs := by
  simp [AutogeneratedExclude.store]

theorem store_strict (p : AutogeneratedExclude) (path : String) (fs : fileSummary) :
    (p.store path fs).strict = p.strict := rfl

/-! ## C1 -/

/-- C1: an issue of the `typecheck` checker is always passed by `shouldPassIssue`: the call
returns `(true, nil)` in either mode, for every file path, every cache and every file system,
parses no file and leaves the receiver (hence the cache) unchanged. Consequently, when
`Process` returns without error, every `typecheck` issue of the input is in the output. -/
theorem C1_typecheck_never_suppressed :
    (∀ (env : Env) (p : AutogeneratedExclude) (issue : Issue),
      issue.FromLinter = "typecheck" →
        (shouldPassIssue env p issue).pass = true ∧
        (shouldPassIssue env p issue).err = none ∧
        (shouldPassIssue env p issue).proc = p ∧
        (shouldPassIssue env p issue).parsed = []) ∧
    (∀ (env : Env) (p : AutogeneratedExclude) (issues : List Issue),
      (Process env p issues).2.1 = none →
        ∀ i ∈ issues, i.FromLinter = "typecheck" → i ∈ (Process env p issues).1) := by
  refine ⟨fun env p issue h => ?_, fun env p issues herr i hi htc => ?_⟩
  · rw [shouldPassIssue_typecheck env p issue h]
    exact ⟨rfl, rfl, rfl, rfl⟩
  · refine (filterIssuesErr_keeps _ issues p [] herr).2 i hi (fun t => ?_)
    simp only []
    rw [shouldPassIssue_typecheck env t i htc]

/-- C1 witness: typecheck issues against a file that does not parse and against the empty
path are passed in both modes, and survive `Process` next to an issue of a generated file. -/
theorem C1_typecheck_never_suppressed_witness :
    (shouldPassIssue sampleEnv (NewAutogeneratedExclude true) (sampleIssue "typecheck" "broken.go")).pass = true ∧
    (shouldPassIssue sampleEnv (NewAutogeneratedExclude false) (sampleIssue "typecheck" "")).pass = true ∧
    sampleIssue "typecheck" "gen.go" ∈
      (Process sampleEnv (NewAutogeneratedExclude false)
        [sampleIssue "govet" "gen.go", sampleIssue "typecheck" "gen.go"]).1 :=
  ⟨(C1_typecheck_never_suppressed.1 sampleEnv _ (sampleIssue "typecheck" "broken.go") rfl).1,
   (C1_typecheck_never_suppressed.1 sampleEnv _ (sampleIssue "typecheck" "") rfl).1,
   C1_typecheck_never_suppressed.2 sampleEnv (NewAutogeneratedExclude false)
     [sampleIssue "govet" "gen.go", sampleIssue "typecheck" "gen.go"] (by decide)
     (sampleIssue "typecheck" "gen.go") (by decide) rfl⟩

/-! ## C2 -/

/-- C2 counterexample: the issue of `govet` against `README.md` is neither a typecheck issue
nor against `go.mod`, its path has no `.go` extension, and `shouldPassIssue` returns
`(false, nil)`: the issue is dropped by `Process`. -/
theorem C2_counterexample :
    (sampleIssue "govet" "README.md").FromLinter ≠ "typecheck" ∧
    filepath.Base (sampleIssue "govet" "README.md").FilePath ≠ "go.mod" ∧
    isGoFile (sampleIssue "govet" "README.md").FilePath = false ∧
    (shouldPassIssue sampleEnv (NewAutogeneratedExclude false) (sampleIssue "govet" "README.md")).pass = false ∧
    (shouldPassIssue sampleEnv (NewAutogeneratedExclude true) (sampleIssue "govet" "README.md")).pass = false ∧
    Process sampleEnv (NewAutogeneratedExclude false) [sampleIssue "govet" "README.md"] =
      ([], none, NewAutogeneratedExclude false) := by
  refine ⟨by decide, by decide, by decide, by decide, by decide, ?_⟩
  simp [Process, filterIssuesErr,
    shouldPassIssue_nonGo sampleEnv _ (sampleIssue "govet" "README.md") (by decide) (by decide)
      (by decide)]

/-- C2 (amended): an issue that is not a typecheck issue, not against `go.mod`, and whose
non-empty file path does not have the extension `.go`, is dropped: `shouldPassIssue` returns
`(false, nil)` without parsing a file and without changing the receiver, and the issue is
absent from every error-free output of `Process`. -/
theorem C2_nonGo_dropped :
    (∀ (env : Env) (p : AutogeneratedExclude) (issue : Issue),
      issue.FromLinter ≠ "typecheck" → filepath.Base issue.FilePath ≠ "go.mod" →
      issue.FilePath ≠ "" → isGoFile issue.FilePath = false →
        (shouldPassIssue env p issue).pass = false ∧
        (shouldPassIssue env p issue).err = none ∧
        (shouldPassIssue env p issue).proc = p ∧
        (shouldPassIssue env p issue).parsed = []) ∧
    (∀ (env : Env) (p : AutogeneratedExclude) (issues : List Issue) (issue : Issue),
      issue.FromLinter ≠ "typecheck" → filepath.Base issue.FilePath ≠ "go.mod" →
      issue.FilePath ≠ "" → isGoFile issue.FilePath = false →
      (Process env p issues).2.1 = none → issue ∉ (Process env p issues).1) := by
  refine ⟨fun env p issue h1 h2 _ h3 => ?_, fun env p issues issue h1 h2 _ h3 herr hmem => ?_⟩
  · rw [shouldPassIssue_nonGo env p issue h1 h2 h3]
    exact ⟨rfl, rfl, rfl, rfl⟩
  · rcases filterIssuesErr_sound _ issues p [] herr issue hmem with h | ⟨_, t, ht⟩
    · simp at h
    · simp only [] at ht
      rw [shouldPassIssue_nonGo env t issue h1 h2 h3] at ht
      simp at ht

/-- C2 witness: the amended statement at the issue against `README.md`. -/
theorem C2_nonGo_dropped_witness :
    (shouldPassIssue sampleEnv (NewAutogeneratedExclude true) (sampleIssue "govet" "README.md")).pass = false ∧
    sampleIssue "govet" "README.md" ∉
      (Process sampleEnv (NewAutogeneratedExclude false)
        [sampleIssue "govet" "README.md", sampleIssue "typecheck" "gen.go"]).1 :=
  ⟨(C2_nonGo_dropped.1 sampleEnv _ (sampleIssue "govet" "README.md") (by decide) (by decide)
      (by decide) (by decide)).1,
   C2_nonGo_dropped.2 sampleEnv _ _ (sampleIssue "govet" "README.md") (by decide) (by decide)
      (by decide) (by decide) (by decide)⟩

/-! ## C5 -/

/-- C5: an issue whose file path has base name `go.mod` is passed by `shouldPassIssue`: the
call returns `(true, nil)` in either mode, for every cache and file system, parses no file
and leaves the receiver (hence the cache) unchanged; `go.mod` in any directory has that base
name; and such an issue is in every error-free output of `Process`. -/
theorem C5_gomod_bypasses :
    (∀ (env : Env) (p : AutogeneratedExclude) (issue : Issue),
      filepath.Base issue.FilePath = "go.mod" →
        (shouldPassIssue env p issue).pass = true ∧
        (shouldPassIssue env p issue).err = none ∧
        (shouldPassIssue env p issue).proc = p ∧
        (shouldPassIssue env p issue).parsed = []) ∧
    (∀ dir : String, filepath.Base (dir ++ "/go.mod") = "go.mod") ∧
    filepath.Base "go.mod" = "go.mod" ∧
    (∀ (env : Env) (p : AutogeneratedExclude) (issues : List Issue),
      (Process env p issues).2.1 = none →
        ∀ i ∈ issues, filepath.Base i.FilePath = "go.mod" → i ∈ (Process env p issues).1) := by
  refine ⟨fun env p issue h => ?_, fun dir => ?_, by decide, fun env p issues herr i hi hb => ?_⟩
  · rw [shouldPassIssue_gomod env p issue h]
    exact ⟨rfl, rfl, rfl, rfl⟩
  · show (⟨baseL (dir ++ "/go.mod").data⟩ : String) = "go.mod"
    rw [String.data_append, baseL_in_dir]
  · refine (filterIssuesErr_keeps _ issues p [] herr).2 i hi (fun t => ?_)
    simp only []
    rw [shouldPassIssue_gomod env t i hb]

/-- C5 witness: an issue against `sub/dir/go.mod` in strict mode. -/
theorem C5_gomod_bypasses_witness :
    filepath.Base (sampleIssue "gomoddirectives" "sub/dir/go.mod").FilePath = "go.mod" ∧
    (shouldPassIssue sampleEnv (NewAutogeneratedExclude true)
      (sampleIssue "gomoddirectives" "sub/dir/go.mod")).pass = true :=
  ⟨by decide,
   (C5_gomod_bypasses.1 sampleEnv _ (sampleIssue "gomoddirectives" "sub/dir/go.mod")
      (by decide)).1⟩

/-! ## C8 -/

/-- C8 (what the code does): for an issue that is not a typecheck issue and whose file path
is empty, `shouldPassIssue` returns `(false, nil)` in either mode and for every cache: the
empty path has no `.go` extension, so the call returns before the check that would produce
the error `no file path for issue`. -/
theorem C8_empty_path_dropped_without_error (env : Env) (p : AutogeneratedExclude)
    (issue : Issue) (h1 : issue.FromLinter ≠ "typecheck") (h2 : issue.FilePath = "") :
    (shouldPassIssue env p issue).pass = false ∧
    (shouldPassIssue env p issue).err = none ∧
    (shouldPassIssue env p issue).err ≠ some "no file path for issue" ∧
    (shouldPassIssue env p issue).proc = p := by
  have hb : filepath.Base issue.FilePath ≠ "go.mod" := by rw [h2]; exact base_empty
  have hg : isGoFile issue.FilePath = false := by rw [h2]; exact isGoFile_empty
  rw [shouldPassIssue_nonGo env p issue h1 hb hg]
  exact ⟨rfl, rfl, by simp, rfl⟩

/-- C8 witness: the issue of `govet` with the empty file path, in strict mode. -/
theorem C8_empty_path_dropped_without_error_witness :
    (shouldPassIssue sampleEnv (NewAutogeneratedExclude true) (sampleIssue "govet" "")).pass = false ∧
    (shouldPassIssue sampleEnv (NewAutogeneratedExclude true) (sampleIssue "govet" "")).err = none :=
  ⟨(C8_empty_path_dropped_without_error sampleEnv _ (sampleIssue "govet" "") (by decide) rfl).1,
   (C8_empty_path_dropped_without_error sampleEnv _ (sampleIssue "govet" "") (by decide) rfl).2.1⟩

/-! ## C6 -/

theorem isGoFile_ne_empty (path : String) (hgo : isGoFile path = true) : path ≠ "" := by
  intro h
  rw [h] at hgo
  exact absurd hgo (by decide)

/-- A strict-mode call for a `.go` file that is not in the cache. -/
theorem shouldPassIssue_strict_miss (env : Env) (p : AutogeneratedExclude) (issue : Issue)
    (h1 : issue.FromLinter ≠ "typecheck")
    (hgo : isGoFile issue.FilePath = true) (hmiss : p.fileSummaryCache issue.FilePath = none)
    (hs : p.strict = true) :
    shouldPassIssue env p issue =
      match isGeneratedFileStrict env issue.FilePath with
      | (generated, some err) =>
        ⟨false, some ("failed to get doc of file " ++ issue.FilePath ++ ": " ++ err),
          (p.store issue.FilePath ⟨false⟩).store issue.FilePath ⟨generated⟩, [issue.FilePath]⟩
      | (generated, none) =>
        ⟨!generated, none, (p.store issue.FilePath ⟨false⟩).store issue.FilePath ⟨generated⟩,
          [issue.FilePath]⟩ := by
  unfold shouldPassIssue
  rw [if_neg h1, if_neg (base_ne_gomod_of_isGoFile _ hgo)]
  simp only [hgo, Bool.not_true, Bool.false_eq_true, if_false, hmiss,
    if_neg (isGoFile_ne_empty _ hgo), hs, if_true]

/-- A lenient-mode call for a `.go` file that is not in the cache. -/
theorem shouldPassIssue_lax_miss (env : Env) (p : AutogeneratedExclude) (issue : Issue)
    (h1 : issue.FromLinter ≠ "typecheck")
    (hgo : isGoFile issue.FilePath = true) (hmiss : p.fileSummaryCache issue.FilePath = none)
    (hs : p.strict = false) :
    shouldPassIssue env p issue =
      match getComments env issue.FilePath with
      | (_, some err) =>
        ⟨false, some ("failed to get doc of file " ++ issue.FilePath ++ ": " ++ err),
          p.store issue.FilePath ⟨false⟩, [issue.FilePath]⟩
      | (doc, none) =>
        ⟨!isGeneratedFileLax env doc, none,
          (p.store issue.FilePath ⟨false⟩).store issue.FilePath ⟨isGeneratedFileLax env doc⟩,
          [issue.FilePath]⟩ := by
  unfold shouldPassIssue
  rw [if_neg h1, if_neg (base_ne_gomod_of_isGoFile _ hgo)]
  simp only [hgo, Bool.not_true, Bool.false_eq_true, if_false, hmiss,
    if_neg (isGoFile_ne_empty _ hgo), hs]

/-- The part of C6 that holds: when the first of two calls for the same `.go` file returns no
error, the second call (on the receiver left by the first, on any file system) returns the
same decision with no error, parses nothing and leaves the receiver unchanged. -/
theorem shouldPassIssue_repeat_after_success (env env2 : Env) (p : AutogeneratedExclude)
    (i1 i2 : Issue)
    (h1 : i1.FromLinter ≠ "typecheck") (h2 : i2.FromLinter ≠ "typecheck")
    (hpath : i2.FilePath = i1.FilePath) (hgo : isGoFile i1.FilePath = true)
    (hok : (shouldPassIssue env p i1).err = none) :
    (shouldPassIssue env2 (shouldPassIssue env p i1).proc i2).pass = (shouldPassIssue env p i1).pass ∧
    (shouldPassIssue env2 (shouldPassIssue env p i1).proc i2).err = none ∧
    (shouldPassIssue env2 (shouldPassIssue env p i1).proc i2).parsed = [] ∧
    (shouldPassIssue env2 (shouldPassIssue env p i1).proc i2).proc = (shouldPassIssue env p i1).proc := by
  have hb : filepath.Base i1.FilePath ≠ "go.mod" := base_ne_gomod_of_isGoFile _ hgo
  have hb2 : filepath.Base i2.FilePath ≠ "go.mod" := by rw [hpath]; exact hb
  have hgo2 : isGoFile i2.FilePath = true := by rw [hpath]; exact hgo
  have key : ∀ g : Bool, ∀ q : AutogeneratedExclude, q.fileSummaryCache i1.FilePath = some ⟨g⟩ →
      shouldPassIssue env2 q i2 = ⟨!g, none, q, []⟩ := by
    intro g q hq
    exact shouldPassIssue_cached env2 q i2 ⟨g⟩ h2 hb2 hgo2 (by rw [hpath]; exact hq)
  cases hc : p.fileSummaryCache i1.FilePath with
  | some fs =>
    rw [shouldPassIssue_cached env p i1 fs h1 hb hgo hc]
    simp only []
    rw [key fs.generated p hc]
    exact ⟨rfl, rfl, rfl, rfl⟩
  | none =>
    cases hs : p.strict with
    | true =>
      rw [shouldPassIssue_strict_miss env p i1 h1 hgo hc hs] at hok ⊢
      rcases hres : isGeneratedFileStrict env i1.FilePath with ⟨g, e⟩
      rw [hres] at hok
      cases e with
      | some err => simp at hok
      | none =>
        rw [key g _ (store_lookup _ _ _)]
        exact ⟨rfl, rfl, rfl, rfl⟩
    | false =>
      rw [shouldPassIssue_lax_miss env p i1 h1 hgo hc hs] at hok ⊢
      rcases hres : getComments env i1.FilePath with ⟨doc, e⟩
      rw [hres] at hok
      cases e with
      | some err => simp at hok
      | none =>
        rw [key _ _ (store_lookup _ _ _)]
        exact ⟨rfl, rfl, rfl, rfl⟩

/-- C6 (what the code does on a parse failure): when the file of a non-typecheck `.go` issue
is not in the cache and does not parse, the first call returns `(false, err)`, but it has
already stored the entry "not generated" for the path; the second call for the same path, on
any file system, answers from that entry and returns `(true, nil)`. -/
theorem C6_verdict_after_parse_error (env env2 : Env) (p : AutogeneratedExclude)
    (i1 i2 : Issue) (perr : String)
    (h1 : i1.FromLinter ≠ "typecheck") (h2 : i2.FromLinter ≠ "typecheck")
    (hpath : i2.FilePath = i1.FilePath) (hgo : isGoFile i1.FilePath = true)
    (hmiss : p.fileSummaryCache i1.FilePath = none)
    (hparse : env.ParseFile i1.FilePath = .error perr) :
    (shouldPassIssue env p i1).pass = false ∧
    (shouldPassIssue env p i1).err =
      some ("failed to get doc of file " ++ i1.FilePath ++ ": " ++ ("failed to parse file: " ++ perr)) ∧
    (shouldPassIssue env2 (shouldPassIssue env p i1).proc i2).pass = true ∧
    (shouldPassIssue env2 (shouldPassIssue env p i1).proc i2).err = none := by
  have hb : filepath.Base i1.FilePath ≠ "go.mod" := base_ne_gomod_of_isGoFile _ hgo
  have hb2 : filepath.Base i2.FilePath ≠ "go.mod" := by rw [hpath]; exact hb
  have hgo2 : isGoFile i2.FilePath = true := by rw [hpath]; exact hgo
  have key : ∀ q : AutogeneratedExclude, q.fileSummaryCache i1.FilePath = some ⟨false⟩ →
      shouldPassIssue env2 q i2 = ⟨true, none, q, []⟩ := by
    intro q hq
    exact shouldPassIssue_cached env2 q i2 ⟨false⟩ h2 hb2 hgo2 (by rw [hpath]; exact hq)
  cases hs : p.strict with
  | true =>
    rw [shouldPassIssue_strict_miss env p i1 h1 hgo hmiss hs]
    simp only [isGeneratedFileStrict, hparse]
    rw [key _ (store_lookup _ _ _)]
    simp
  | false =>
    rw [shouldPassIssue_lax_miss env p i1 h1 hgo hmiss hs]
    simp only [getComments, hparse]
    rw [key _ (store_lookup _ _ _)]
    simp

/-- C6 witness: two issues against `broken.go`, lenient mode, fresh cache; the file has been
repaired (and is a generated file) by the time of the second call. -/
theorem C6_verdict_after_parse_error_witness :
    (shouldPassIssue sampleEnv (NewAutogeneratedExclude false) (sampleIssue "govet" "broken.go")).pass = false ∧
    (shouldPassIssue sampleEnv (NewAutogeneratedExclude false) (sampleIssue "govet" "broken.go")).err =
      some ("failed to get doc of file " ++ "broken.go" ++ ": " ++
        ("failed to parse file: " ++ "broken.go:1:1: expected package clause, found EOF")) ∧
    (shouldPassIssue repairedEnv
      (shouldPassIssue sampleEnv (NewAutogeneratedExclude false) (sampleIssue "govet" "broken.go")).proc
      (sampleIssue "errcheck" "broken.go")).pass = true ∧
    (shouldPassIssue repairedEnv
      (shouldPassIssue sampleEnv (NewAutogeneratedExclude false) (sampleIssue "govet" "broken.go")).proc
      (sampleIssue "errcheck" "broken.go")).err = none :=
  C6_verdict_after_parse_error sampleEnv repairedEnv (NewAutogeneratedExclude false)
    (sampleIssue "govet" "broken.go") (sampleIssue "errcheck" "broken.go")
    "broken.go:1:1: expected package clause, found EOF"
    (by decide) (by decide) rfl (by decide) rfl rfl

/-! ## C7 -/

theorem foldl_append_singleton {α β : Type} (f : α → β) (ds : List α) :
    ∀ acc : List β, ds.foldl (fun res i => res ++ [f i]) acc = acc ++ ds.map f := by
  induction ds with
  | nil => intro acc; simp
  | cons d rest ih => intro acc; simp [ih]

/-- C7: when the wrapped analyzer returns diagnostics without error, `govet.Run` returns a
result with no error whose issues are the images of the diagnostics, one per diagnostic and in
the same order: `File` is the position file name, `LineNumber` the position line, `Text` the
message, `FromLinter` the name `govet`; when the analyzer returns an error, `govet.Run`
returns no result and that error. -/
theorem C7_govet_maps_diagnostics
    (api : List String → List String → Bool → List govetAPI.Issue × Option String)
    (cfg : config.Run) :
    (∀ ds : List govetAPI.Issue,
      api cfg.Paths cfg.BuildTags cfg.Govet.CheckShadowing = (ds, none) →
      ∃ res : Result, govet.Run api cfg = (some res, none) ∧
        res.Issues.length = ds.length ∧
        res.Issues = ds.map (fun d =>
          { File := d.Pos.Filename, LineNumber := d.Pos.Line, Text := d.Message,
            FromLinter := "govet" }) ∧
        ∀ (k : Nat) (d : govetAPI.Issue), ds[k]? = some d →
          ∃ i : Issue, res.Issues[k]? = some i ∧ i.File = d.Pos.Filename ∧
            i.LineNumber = d.Pos.Line ∧ i.Text = d.Message ∧ i.FromLinter = "govet" ∧
            i.FromLinter = govet.Name) ∧
    (∀ (ds : List govetAPI.Issue) (err : String),
      api cfg.Paths cfg.BuildTags cfg.Govet.CheckShadowing = (ds, some err) →
      govet.Run api cfg = (none, some err)) := by
  refine ⟨fun ds h => ?_, fun ds err h => ?_⟩
  · refine ⟨⟨ds.map (fun d =>
          { File := d.Pos.Filename, LineNumber := d.Pos.Line, Text := d.Message,
            FromLinter := "govet" })⟩, ?_, ?_, rfl, ?_⟩
    · simp [govet.Run, h, foldl_append_singleton, govet.Name]
    · simp
    · intro k d hk
      simp [govet.Name, hk]
  · simp [govet.Run, h]

/-- C7 witness: two diagnostics are mapped to two issues of `govet`; a failing analyzer
gives no result and its error. -/
theorem C7_govet_maps_diagnostics_witness :
    (∃ res : Result, govet.Run sampleVet sampleCfg = (some res, none) ∧
      res.Issues.length = 2 ∧
      res.Issues =
        [ { File := "a.go", LineNumber := 3, Text := "unreachable code", FromLinter := "govet" },
          { File := "b.go", LineNumber := 7, Text := "self-assignment of x to x",
            FromLinter := "govet" } ]) ∧
    govet.Run failingVet sampleCfg = (none, some "cannot load packages") := by
  obtain ⟨res, h1, h2, h3, _⟩ := (C7_govet_maps_diagnostics sampleVet sampleCfg).1 _ rfl
  exact ⟨⟨res, h1, h2, h3⟩, (C7_govet_maps_diagnostics failingVet sampleCfg).2 [] _ rfl⟩

/-! ## Lemmas on strings -/

theorem containsL_iff (sub : List Char) : ∀ s : List Char, containsL s sub = true ↔ sub <:+: s := by
  intro s
  induction s with
  | nil => simp [containsL]
  | cons c cs ih =>
    rw [containsL, Bool.or_eq_true, ih, List.isPrefixOf_iff_prefix, List.infix_cons_iff]

theorem contains_iff (s sub : String) : strings.Contains s sub = true ↔ sub.data <:+: s.data :=
  containsL_iff sub.data s.data

theorem map_infix_inv {α β : Type} (f : α → β) (m : List β) (s : List α)
    (h : m <:+: s.map f) : ∃ w, w <:+: s ∧ w.map f = m := by
  obtain ⟨a, b, hab⟩ := h
  obtain ⟨ab, s2, hs, hab2, hb⟩ := List.map_eq_append_iff.1 hab.symm
  obtain ⟨s0, s1, hs01, ha, hm⟩ := List.map_eq_append_iff.1 hab2
  exact ⟨s1, ⟨s0, s2, by rw [hs, hs01]⟩, hm⟩

theorem mem_infix_joinL (sep a : List Char) : ∀ ls : List (List Char), a ∈ ls → a <:+: joinL sep ls := by
  intro ls
  induction ls with
  | nil => intro h; simp at h
  | cons x rest ih =>
    intro h
    cases rest with
    | nil =>
      have hx : a = x := by simpa using h
      rw [hx, joinL]
    | cons y rest2 =>
      rw [joinL]
      rcases List.mem_cons.1 h with rfl | h2
      · exact ⟨[], sep ++ joinL sep (y :: rest2), by simp⟩
      · obtain ⟨u, v, huv⟩ := ih h2
        exact ⟨x ++ sep ++ u, v, by rw [← huv]; simp⟩

theorem dropWhile_append_stop {α : Type} (p : α → Bool) (x : α) (r : List α) (hx : p x = false) :
    ∀ a : List α, (a ++ x :: r).dropWhile p = a.dropWhile p ++ x :: r := by
  intro a
  induction a with
  | nil => simp [List.dropWhile, hx]
  | cons y ys ih =>
    by_cases hy : p y = true
    · simp [List.dropWhile, hy, ih]
    · simp [List.dropWhile, hy]

/-- Trimming keeps every block that begins and ends with a rune that is not white space. -/
theorem infix_trimSpaceL (w s : List Char) (x y : Char) (mid : List Char)
    (hw : w = x :: mid ++ [y]) (hx : unicode.IsSpace x = false) (hy : unicode.IsSpace y = false)
    (h : w <:+: s) : w <:+: trimSpaceL s := by
  obtain ⟨a, b, hab⟩ := h
  have h1 : s.dropWhile unicode.IsSpace = a.dropWhile unicode.IsSpace ++ x :: (mid ++ [y] ++ b) := by
    rw [← hab, hw]
    simpa using dropWhile_append_stop unicode.IsSpace x (mid ++ [y] ++ b) hx a
  have h2 : (s.dropWhile unicode.IsSpace).reverse =
      b.reverse ++ y :: (mid.reverse ++ x :: (a.dropWhile unicode.IsSpace).reverse) := by
    rw [h1]; simp
  unfold trimSpaceL
  rw [h2, dropWhile_append_stop unicode.IsSpace y _ hy]
  refine ⟨a.dropWhile unicode.IsSpace, (b.reverse.dropWhile unicode.IsSpace).reverse, ?_⟩
  rw [hw]
  simp

theorem splitNewline_single : ∀ l : List Char, (∀ c ∈ l, c ≠ '\n') → splitNewline l = [l] := by
  intro l
  induction l with
  | nil => intro _; rfl
  | cons c cs ih =>
    intro h
    have hc : c ≠ '\n' := h c (by simp)
    have hcs := ih (fun d hd => h d (by simp [hd]))
    rw [splitNewline, if_neg hc, hcs]

theorem stripTrailingWhitespace_keep (l : List Char) (y : Char) (hy : ast.isWhitespace y = false) :
    ast.stripTrailingWhitespace (l ++ [y]) = l ++ [y] := by
  unfold ast.stripTrailingWhitespace
  simp [List.dropWhile, hy]

theorem mem_rawLines (l : List Char) : ∀ cs : List ast.Comment,
    (∃ c ∈ cs, l ∈ ast.commentLines c.Text.data) → l ∈ ast.rawLines cs := by
  intro cs
  induction cs with
  | nil => rintro ⟨c, hc, _⟩; simp at hc
  | cons x rest ih =>
    rintro ⟨c, hc, hl⟩
    rw [ast.rawLines, List.mem_append]
    rcases List.mem_cons.1 hc with rfl | hc2
    · exact Or.inl hl
    · exact Or.inr (ih ⟨c, hc2, hl⟩)

theorem mem_compact (l : List Char) (hl : l ≠ []) : ∀ (lines kept : List (List Char)),
    (l ∈ kept ∨ l ∈ lines) → l ∈ lines.foldl ast.compactStep kept := by
  intro lines
  induction lines with
  | nil => intro kept h; simpa using h
  | cons x rest ih =>
    intro kept h
    rw [List.foldl_cons]
    apply ih
    rcases h with h | h
    · left
      unfold ast.compactStep
      split <;> simp [h]
    · rcases List.mem_cons.1 h with rfl | h2
      · left
        have : l.isEmpty = false := by
          cases l with
          | nil => exact absurd rfl hl
          | cons _ _ => rfl
        simp [ast.compactStep, this]
      · exact Or.inr h2

/-- Every non-blank line of a comment of the group occurs in the text of the group. -/
theorem line_infix_Text (g : ast.CommentGroup) (l : List Char) (hl : l ≠ [])
    (h : ∃ c ∈ g.List, l ∈ ast.commentLines c.Text.data) : l <:+: g.Text.data := by
  have h1 : l ∈ (ast.rawLines g.List).foldl ast.compactStep [] :=
    mem_compact l hl _ _ (Or.inr (mem_rawLines l g.List h))
  unfold ast.CommentGroup.Text
  apply mem_infix_joinL
  split
  · split
    · exact List.mem_append_left _ h1
    · exact h1
  · exact h1

/-! ## Lemmas on the strict pattern -/

/-- The matcher accepts exactly the language of `^// Code generated .* DO NOT EDIT\.$`. -/
theorem strictPattern_match_iff (text : String) :
    strictPattern.MatchString text = true ↔
      ∃ mid : List Char, (∀ c ∈ mid, c ≠ '\n') ∧
        text.data = "// Code generated ".data ++ mid ++ " DO NOT EDIT.".data := by
  have hP : "// Code generated ".length = 18 := by decide
  have hS : " DO NOT EDIT.".length = 13 := by decide
  unfold strictPattern.MatchString
  simp only [hP, hS, Bool.and_eq_true, List.isPrefixOf_iff_prefix, List.isSuffixOf_iff_suffix,
    List.all_eq_true, bne_iff_ne, ne_eq]
  constructor
  · rintro ⟨⟨r, hr⟩, ⟨mid, hmid⟩, hall⟩
    have hd : text.data.drop 18 = r := by
      rw [← hr]
      exact List.drop_left' (by decide)
    rw [hd] at hmid hall
    have ht : r.take (r.length - 13) = mid := by
      rw [← hmid]
      have : (" DO NOT EDIT.".data).length = 13 := by decide
      simp [this]
    rw [ht] at hall
    exact ⟨mid, hall, by rw [← hr, ← hmid, List.append_assoc]⟩
  · rintro ⟨mid, hall, ht⟩
    have hd : text.data.drop 18 = mid ++ " DO NOT EDIT.".data := by
      rw [ht, List.append_assoc]
      exact List.drop_left' (by decide)
    rw [hd]
    refine ⟨⟨mid ++ " DO NOT EDIT.".data, by rw [ht, List.append_assoc]⟩, ⟨mid, rfl⟩, ?_⟩
    have : (" DO NOT EDIT.".data).length = 13 := by decide
    simpa [this] using hall

/-- A comment that matches the strict pattern contributes its text, without the marker `// `,
as one line. -/
theorem commentLines_of_match (text : String) (mid : List Char) (hall : ∀ c ∈ mid, c ≠ '\n')
    (ht : text.data = "// Code generated ".data ++ mid ++ " DO NOT EDIT.".data) :
    ast.commentLines text.data = ["Code generated ".data ++ mid ++ " DO NOT EDIT.".data] := by
  have hshape : text.data =
      '/' :: '/' :: ' ' :: ("Code generated ".data ++ mid ++ " DO NOT EDIT.".data) := by
    rw [ht]; rfl
  have hnl : ∀ c ∈ "Code generated ".data ++ mid ++ " DO NOT EDIT.".data, c ≠ '\n' := by
    have h1 : ∀ c ∈ "Code generated ".data, c ≠ '\n' := by decide
    have h2 : ∀ c ∈ " DO NOT EDIT.".data, c ≠ '\n' := by decide
    intro c hc
    rcases List.mem_append.1 hc with h | h
    · rcases List.mem_append.1 h with h | h
      · exact h1 c h
      · exact hall c h
    · exact h2 c h
  have hlast : "Code generated ".data ++ mid ++ " DO NOT EDIT.".data =
      ("Code generated ".data ++ mid ++ " DO NOT EDIT".data) ++ ['.'] := by
    have : " DO NOT EDIT.".data = " DO NOT EDIT".data ++ ['.'] := by decide
    rw [this, List.append_assoc, List.append_assoc, List.append_assoc]
  unfold ast.commentLines
  rw [hshape]
  simp only [ast.commentBody, if_true]
  rw [splitNewline_single _ hnl]
  simp only [List.map]
  rw [hlast, stripTrailingWhitespace_keep _ '.' (by decide)]

/-- A line matching the strict pattern, in any comment group of the file, puts the words
`Code generated` into the doc string built by `getComments`. -/
theorem strict_line_in_doc (file : ast.File) (g : ast.CommentGroup) (hg : g ∈ file.Comments)
    (line : ast.Comment) (hline : line ∈ g.List)
    (hm : strictPattern.MatchString line.Text = true) :
    "Code generated".data <:+: (commentsDoc file).data := by
  obtain ⟨mid, hall, ht⟩ := (strictPattern_match_iff line.Text).1 hm
  have hlines := commentLines_of_match line.Text mid hall ht
  have hL : "Code generated ".data ++ mid ++ " DO NOT EDIT.".data <:+: g.Text.data := by
    apply line_infix_Text g _ (by simp)
    exact ⟨line, hline, by rw [hlines]; simp⟩
  have hw : "Code generated".data <:+: "Code generated ".data ++ mid ++ " DO NOT EDIT.".data := by
    refine ⟨[], ' ' :: (mid ++ " DO NOT EDIT.".data), ?_⟩
    have : "Code generated ".data = "Code generated".data ++ [' '] := by decide
    rw [this]
    simp
  have htrim : "Code generated".data <:+: trimSpaceL g.Text.data :=
    infix_trimSpaceL _ _ 'C' 'd' "ode generate".data (by decide) (by decide) (by decide)
      (hw.trans hL)
  have hmem : trimSpaceL g.Text.data ∈
      (file.Comments.map (fun c => strings.TrimSpace c.Text)).map String.data := by
    simp only [List.map_map, List.mem_map]
    exact ⟨g, hg, rfl⟩
  exact htrim.trans (mem_infix_joinL _ _ _ hmem)

/-! ## Lemmas on the two detectors -/

theorem isGeneratedFileLax_iff (env : Env) (doc : String) :
    isGeneratedFileLax env doc = true ↔
      "code generated".data <:+: (strings.ToLower env.lowerTable doc).data ∨
      "do not edit".data <:+: (strings.ToLower env.lowerTable doc).data ∨
      "autogenerated file".data <:+: (strings.ToLower env.lowerTable doc).data := by
  simp [isGeneratedFileLax, contains_iff, genCodeGenerated, genDoNotEdit, genAutoFile]

/-- A block of the doc whose lower-casing is a marker makes the lenient detector answer
`true`. -/
theorem isGeneratedFileLax_of_block (env : Env) (doc : String) (w : List Char) (m : String)
    (hm : m = genCodeGenerated ∨ m = genDoNotEdit ∨ m = genAutoFile)
    (hw : w <:+: doc.data) (hlow : w.map (unicode.ToLower env.lowerTable) = m.data) :
    isGeneratedFileLax env doc = true := by
  have h : m.data <:+: (strings.ToLower env.lowerTable doc).data := by
    rw [← hlow]
    exact hw.map _
  rw [isGeneratedFileLax_iff]
  rcases hm with rfl | rfl | rfl
  · exact Or.inl h
  · exact Or.inr (Or.inl h)
  · exact Or.inr (Or.inr h)

theorem isGeneratedFileStrictParsed_eq (file : ast.File) :
    isGeneratedFileStrictParsed file = strictScan file.Package file.Comments := by
  unfold isGeneratedFileStrictParsed
  split
  · rename_i h
    rw [List.length_eq_zero.1 h]
    rfl
  · rfl

theorem strictScan_true (pkg : Nat) : ∀ gs : List ast.CommentGroup, strictScan pkg gs = true →
    ∃ g ∈ gs, g.Pos ≤ pkg ∧ ∃ line ∈ g.List, strictPattern.MatchString line.Text = true := by
  intro gs
  induction gs with
  | nil => intro h; simp [strictScan] at h
  | cons x rest ih =>
    intro h
    rw [strictScan] at h
    by_cases hpos : x.Pos > pkg
    · simp [hpos] at h
    · rw [if_neg hpos] at h
      by_cases hany : x.List.any (fun line => strictPattern.MatchString line.Text) = true
      · obtain ⟨line, hl, hmatch⟩ := List.any_eq_true.1 hany
        exact ⟨x, by simp, Nat.le_of_not_gt hpos, line, hl, hmatch⟩
      · rw [if_neg hany] at h
        obtain ⟨g, hg, hrest⟩ := ih h
        exact ⟨g, List.mem_cons_of_mem _ hg, hrest⟩

theorem strictScan_sorted (pkg : Nat) : ∀ gs : List ast.CommentGroup,
    List.Pairwise (fun a b => a.Pos ≤ b.Pos) gs →
    (∃ g ∈ gs, g.Pos ≤ pkg ∧ ∃ line ∈ g.List, strictPattern.MatchString line.Text = true) →
    strictScan pkg gs = true := by
  intro gs
  induction gs with
  | nil => rintro _ ⟨g, hg, _⟩; simp at hg
  | cons x rest ih =>
    rintro hsorted ⟨g, hg, hpos, line, hl, hmatch⟩
    obtain ⟨hx, hrest⟩ := List.pairwise_cons.1 hsorted
    have hxpos : ¬ x.Pos > pkg := by
      rcases List.mem_cons.1 hg with rfl | hg2
      · exact Nat.not_lt.2 hpos
      · exact Nat.not_lt.2 (Nat.le_trans (hx g hg2) hpos)
    rw [strictScan, if_neg hxpos]
    by_cases hany : x.List.any (fun line => strictPattern.MatchString line.Text) = true
    · rw [if_pos hany]
    · rw [if_neg hany]
      rcases List.mem_cons.1 hg with rfl | hg2
      · exact absurd (List.any_eq_true.2 ⟨line, hl, hmatch⟩) hany
      · exact ih hrest ⟨g, hg2, hpos, line, hl, hmatch⟩

/-! ## C3 -/

theorem map_of_forall2 {α β : Type} (f : α → β) (R : α → β → Prop) :
    ∀ (w : List α) (m : List β), List.Forall₂ R w m → (∀ a b, b ∈ m → R a b → f a = b) →
      w.map f = m := by
  intro w m h
  induction h with
  | nil => intro _; rfl
  | cons hab _ ih =>
    intro hf
    rw [List.map_cons, hf _ _ (by simp) hab, ih (fun a b hb => hf a b (by simp [hb]))]

theorem toLower_ascii (tbl : Char → Char) (c : Char) (h : c.toNat ≤ 127) :
    unicode.ToLower tbl c = asciiLower c := by
  simp [unicode.ToLower, h]

/-- C3: `isGeneratedFileLax(doc)` is true exactly when the lower-cased doc contains one of the
markers `code generated`, `do not edit`, `autogenerated file`. In particular a doc with a
block that lower-cases to `do not edit` yields true, as does a doc with `do not edit` written
in any mix of upper and lower case; and a doc none of whose blocks lower-cases to a marker
yields false. -/
theorem C3_lax_markers (env : Env) :
    (∀ doc : String, isGeneratedFileLax env doc = true ↔
      "code generated".data <:+: (strings.ToLower env.lowerTable doc).data ∨
      "do not edit".data <:+: (strings.ToLower env.lowerTable doc).data ∨
      "autogenerated file".data <:+: (strings.ToLower env.lowerTable doc).data) ∧
    (∀ (doc : String) (w : List Char), w <:+: doc.data →
      strings.ToLower env.lowerTable ⟨w⟩ = "do not edit" → isGeneratedFileLax env doc = true) ∧
    (∀ (doc : String) (w : List Char), w <:+: doc.data →
      List.Forall₂ (fun a b => a = b ∨ a = b.toUpper) w "do not edit".data →
      isGeneratedFileLax env doc = true) ∧
    (∀ doc : String,
      (∀ m ∈ [genCodeGenerated, genDoNotEdit, genAutoFile], ∀ w : List Char, w <:+: doc.data →
        strings.ToLower env.lowerTable ⟨w⟩ ≠ m) →
      isGeneratedFileLax env doc = false) := by
  refine ⟨isGeneratedFileLax_iff env, fun doc w hw hlow => ?_, fun doc w hw hcase => ?_,
    fun doc hnone => ?_⟩
  · exact isGeneratedFileLax_of_block env doc w genDoNotEdit (Or.inr (Or.inl rfl)) hw
      (congrArg String.data hlow)
  · refine isGeneratedFileLax_of_block env doc w genDoNotEdit (Or.inr (Or.inl rfl)) hw ?_
    refine map_of_forall2 _ _ w _ hcase (fun a b hb hab => ?_)
    have hchars : ∀ b ∈ "do not edit".data, b.toNat ≤ 127 ∧ b.toUpper.toNat ≤ 127 ∧
        asciiLower b = b ∧ asciiLower b.toUpper = b := by decide
    obtain ⟨h1, h2, h3, h4⟩ := hchars b hb
    rcases hab with rfl | rfl
    · rw [toLower_ascii _ _ h1, h3]
    · rw [toLower_ascii _ _ h2, h4]
  · cases hlax : isGeneratedFileLax env doc with
    | false => rfl
    | true =>
      exfalso
      have hblock : ∀ m : String, m.data <:+: (strings.ToLower env.lowerTable doc).data →
          ∃ w, w <:+: doc.data ∧ strings.ToLower env.lowerTable ⟨w⟩ = m := by
        intro m hm
        obtain ⟨w, hw, hmap⟩ := map_infix_inv _ _ _ hm
        exact ⟨w, hw, by simp [strings.ToLower, hmap]⟩
      rcases (isGeneratedFileLax_iff env doc).1 hlax with h | h | h
      · obtain ⟨w, hw, hlow⟩ := hblock "code generated" h
        exact hnone genCodeGenerated (by simp) w hw hlow
      · obtain ⟨w, hw, hlow⟩ := hblock "do not edit" h
        exact hnone genDoNotEdit (by simp) w hw hlow
      · obtain ⟨w, hw, hlow⟩ := hblock "autogenerated file" h
        exact hnone genAutoFile (by simp) w hw hlow

/-- C3 witness: the doc of a file whose only comment is `// Code generated by tool. DO NOT
EDIT.` contains the block `DO NOT EDIT`, and the lenient detector answers true. -/
theorem C3_lax_markers_witness :
    "DO NOT EDIT".data <:+: "Code generated by tool. DO NOT EDIT.".data ∧
    strings.ToLower sampleEnv.lowerTable ⟨"DO NOT EDIT".data⟩ = "do not edit" ∧
    isGeneratedFileLax sampleEnv "Code generated by tool. DO NOT EDIT." = true :=
  ⟨⟨"Code generated by tool. ".data, ".".data, by decide⟩, by decide,
   (C3_lax_markers sampleEnv).2.1 "Code generated by tool. DO NOT EDIT." "DO NOT EDIT".data
     ⟨"Code generated by tool. ".data, ".".data, by decide⟩ (by decide)⟩

/-! ## C4 -/

/-- C4: for a successfully parsed file, `isGeneratedFileStrict` returns the verdict of the
scan with no error, and (a) given that no comment group starts at the very position of the
package keyword, the verdict is true only if a comment line of a group positioned before the
package clause matches `^// Code generated .* DO NOT EDIT\.$`; (b) when all matching lines
lie in groups positioned after the package clause the verdict is false; (c) when the groups
are in source order, a matching line in a group before the package clause gives true. The
last part states what matching the pattern means. -/
theorem C4_strict_before_package (file : ast.File) :
    (∀ (env : Env) (path : String), env.ParseFile path = .ok file →
      isGeneratedFileStrict env path = (isGeneratedFileStrictParsed file, none)) ∧
    ((∀ g ∈ file.Comments, g.Pos ≠ file.Package) →
      isGeneratedFileStrictParsed file = true →
      ∃ g ∈ file.Comments, g.Pos < file.Package ∧
        ∃ line ∈ g.List, strictPattern.MatchString line.Text = true) ∧
    ((∀ g ∈ file.Comments, ∀ line ∈ g.List, strictPattern.MatchString line.Text = true →
        file.Package < g.Pos) →
      isGeneratedFileStrictParsed file = false) ∧
    (List.Pairwise (fun a b => a.Pos ≤ b.Pos) file.Comments →
      (∃ g ∈ file.Comments, g.Pos < file.Package ∧
        ∃ line ∈ g.List, strictPattern.MatchString line.Text = true) →
      isGeneratedFileStrictParsed file = true) ∧
    (∀ text : String, strictPattern.MatchString text = true ↔
      ∃ mid : List Char, (∀ c ∈ mid, c ≠ '\n') ∧
        text.data = "// Code generated ".data ++ mid ++ " DO NOT EDIT.".data) := by
  refine ⟨fun env path hparse => ?_, fun hne htrue => ?_, fun hafter => ?_,
    fun hsorted hex => ?_, strictPattern_match_iff⟩
  · simp [isGeneratedFileStrict, hparse]
  · rw [isGeneratedFileStrictParsed_eq] at htrue
    obtain ⟨g, hg, hpos, line, hl, hm⟩ := strictScan_true _ _ htrue
    exact ⟨g, hg, Nat.lt_of_le_of_ne hpos (hne g hg), line, hl, hm⟩
  · cases hv : isGeneratedFileStrictParsed file with
    | false => rfl
    | true =>
      rw [isGeneratedFileStrictParsed_eq] at hv
      obtain ⟨g, hg, hpos, line, hl, hm⟩ := strictScan_true _ _ hv
      exact absurd (hafter g hg line hl hm) (Nat.not_lt.2 hpos)
  · rw [isGeneratedFileStrictParsed_eq]
    obtain ⟨g, hg, hpos, hline⟩ := hex
    exact strictScan_sorted _ _ hsorted ⟨g, hg, Nat.le_of_lt hpos, hline⟩

/-- C4 witness: in `exhaustive_generated.go` the only matching line comes after the package
clause and the verdict is false; in a file that starts with the marker line it is true. -/
theorem C4_strict_before_package_witness :
    isGeneratedFileStrictParsed testdata.exhaustive_generated = false ∧
    isGeneratedFileStrictParsed testdata.generated_header = true ∧
    isGeneratedFileStrict sampleEnv "gen.go" = (true, none) :=
  ⟨(C4_strict_before_package testdata.exhaustive_generated).2.2.1 (by decide),
   (C4_strict_before_package testdata.generated_header).2.2.2.1 (by decide) (by decide),
   ((C4_strict_before_package testdata.generated_header).1 sampleEnv "gen.go" rfl).trans
     (by decide)⟩

/-! ## C9 -/

/-- C9: in lenient mode the position of the marker comment does not matter. For a parsed
file with a comment group, anywhere in the file, whose trimmed text contains a marker up to
letter case, `getComments` returns a doc that contains the trimmed text of that group, the
lenient detector answers true on the doc, and a lenient-mode call for a non-typecheck issue
against that `.go` file returns `(false, nil)`, provided the cache does not already hold the
opposite verdict for the path: the issue is dropped. -/
theorem C9_lax_ignores_position (env : Env) (file : ast.File) (g : ast.CommentGroup)
    (m : String) (hg : g ∈ file.Comments)
    (hm : m = genCodeGenerated ∨ m = genDoNotEdit ∨ m = genAutoFile)
    (hcontains : m.data <:+: (strings.ToLower env.lowerTable (strings.TrimSpace g.Text)).data) :
    (strings.TrimSpace g.Text).data <:+: (commentsDoc file).data ∧
    isGeneratedFileLax env (commentsDoc file) = true ∧
    (∀ path : String, env.ParseFile path = .ok file →
      getComments env path = (commentsDoc file, none)) ∧
    (∀ (p : AutogeneratedExclude) (issue : Issue),
      p.strict = false → issue.FromLinter ≠ "typecheck" → isGoFile issue.FilePath = true →
      p.fileSummaryCache issue.FilePath ≠ some ⟨false⟩ →
      env.ParseFile issue.FilePath = .ok file →
        (shouldPassIssue env p issue).pass = false ∧ (shouldPassIssue env p issue).err = none) := by
  have hin : (strings.TrimSpace g.Text).data <:+: (commentsDoc file).data := by
    apply mem_infix_joinL
    simp only [List.map_map, List.mem_map]
    exact ⟨g, hg, rfl⟩
  have hlax : isGeneratedFileLax env (commentsDoc file) = true := by
    obtain ⟨w, hw, hmap⟩ := map_infix_inv _ _ _ hcontains
    exact isGeneratedFileLax_of_block env _ w m hm (hw.trans hin) hmap
  refine ⟨hin, hlax, fun path hparse => ?_, fun p issue hs h1 hgo hcache hparse => ?_⟩
  · simp [getComments, hparse]
  · cases hc : p.fileSummaryCache issue.FilePath with
    | none =>
      rw [shouldPassIssue_lax_miss env p issue h1 hgo hc hs]
      simp [getComments, hparse, hlax]
    | some fs =>
      have hgen : fs.generated = true := by
        cases hfs : fs.generated with
        | true => rfl
        | false =>
          exfalso
          apply hcache
          rw [hc]
          cases fs
          simp_all
      rw [shouldPassIssue_cached env p issue fs h1 (base_ne_gomod_of_isGoFile _ hgo) hgo hc]
      simp [hgen]

/-- C9 witness: `exhaustive_generated.go`, whose marker comment follows `package testdata`.
The lenient processor drops the issue; the strict one keeps it. -/
theorem C9_lax_ignores_position_witness :
    testdata.exhaustive_generated.Package < (ast.CommentGroup.mk
      [⟨87, "// Code generated by some program. DO NOT EDIT.", rfl⟩] (by simp)).Pos ∧
    isGeneratedFileLax sampleEnv (commentsDoc testdata.exhaustive_generated) = true ∧
    (shouldPassIssue sampleEnv (NewAutogeneratedExclude false)
      (sampleIssue "exhaustive" "exhaustive_generated.go")).pass = false ∧
    (shouldPassIssue sampleEnv (NewAutogeneratedExclude false)
      (sampleIssue "exhaustive" "exhaustive_generated.go")).err = none ∧
    (shouldPassIssue sampleEnv (NewAutogeneratedExclude true)
      (sampleIssue "exhaustive" "exhaustive_generated.go")).pass = true :=
  have h := C9_lax_ignores_position sampleEnv testdata.exhaustive_generated
    ⟨[⟨87, "// Code generated by some program. DO NOT EDIT.", rfl⟩], by simp⟩
    genCodeGenerated (by simp [testdata.exhaustive_generated]) (Or.inl rfl)
    ⟨[], " by some program. do not edit.".data, by decide⟩
  ⟨by decide, h.2.1,
   (h.2.2.2 (NewAutogeneratedExclude false) (sampleIssue "exhaustive" "exhaustive_generated.go")
      rfl (by decide) (by decide) (by simp [NewAutogeneratedExclude]) rfl).1,
   (h.2.2.2 (NewAutogeneratedExclude false) (sampleIssue "exhaustive" "exhaustive_generated.go")
      rfl (by decide) (by decide) (by simp [NewAutogeneratedExclude]) rfl).2,
   by decide⟩

/-! ## C10 -/

/-- C10: strict detection is no more permissive than lenient detection. If the strict scan
of a parsed file answers true, the lenient detector answers true on the doc that
`getComments` builds from the same file; so whenever `isGeneratedFileStrict` returns
`(true, nil)` for a path, `getComments` succeeds there with a doc the lenient detector
accepts; and every issue for which a strict-mode processor with a fresh cache returns
`false` also gets `false` from a lenient-mode processor with a fresh cache, with the same
error or absence of error. -/
theorem C10_strict_implies_lax (env : Env) :
    (∀ file : ast.File, isGeneratedFileStrictParsed file = true →
      isGeneratedFileLax env (commentsDoc file) = true) ∧
    (∀ path : String, isGeneratedFileStrict env path = (true, none) →
      ∃ doc : String, getComments env path = (doc, none) ∧ isGeneratedFileLax env doc = true) ∧
    (∀ issue : Issue,
      (shouldPassIssue env (NewAutogeneratedExclude true) issue).pass = false →
        (shouldPassIssue env (NewAutogeneratedExclude false) issue).pass = false ∧
        (shouldPassIssue env (NewAutogeneratedExclude false) issue).err =
          (shouldPassIssue env (NewAutogeneratedExclude true) issue).err) := by
  have hfile : ∀ file : ast.File, isGeneratedFileStrictParsed file = true →
      isGeneratedFileLax env (commentsDoc file) = true := by
    intro file htrue
    rw [isGeneratedFileStrictParsed_eq] at htrue
    obtain ⟨g, hg, _, line, hl, hmatch⟩ := strictScan_true _ _ htrue
    have hdoc := strict_line_in_doc file g hg line hl hmatch
    have hchars : ∀ c ∈ "Code generated".data, c.toNat ≤ 127 := by decide
    refine isGeneratedFileLax_of_block env _ "Code generated".data genCodeGenerated
      (Or.inl rfl) hdoc ?_
    have hmap : "Code generated".data.map (unicode.ToLower env.lowerTable) =
        "Code generated".data.map asciiLower :=
      List.map_congr_left (fun c hc => toLower_ascii _ c (hchars c hc))
    rw [hmap]
    decide
  refine ⟨hfile, fun path hstrict => ?_, fun issue hdrop => ?_⟩
  · unfold isGeneratedFileStrict at hstrict
    cases hparse : env.ParseFile path with
    | error e => rw [hparse] at hstrict; simp at hstrict
    | ok file =>
      rw [hparse] at hstrict
      have htrue : isGeneratedFileStrictParsed file = true := by simpa using hstrict
      exact ⟨commentsDoc file, by simp [getComments, hparse], hfile file htrue⟩
  · by_cases h1 : issue.FromLinter = "typecheck"
    · rw [shouldPassIssue_typecheck env _ issue h1] at hdrop
      simp at hdrop
    · by_cases hb : filepath.Base issue.FilePath = "go.mod"
      · rw [shouldPassIssue_gomod env _ issue hb] at hdrop
        simp at hdrop
      · cases hgo : isGoFile issue.FilePath with
        | false =>
          rw [shouldPassIssue_nonGo env _ issue h1 hb hgo,
            shouldPassIssue_nonGo env _ issue h1 hb hgo]
          exact ⟨rfl, rfl⟩
        | true =>
          rw [shouldPassIssue_strict_miss env (NewAutogeneratedExclude true) issue h1 hgo rfl
            rfl] at hdrop ⊢
          rw [shouldPassIssue_lax_miss env (NewAutogeneratedExclude false) issue h1 hgo rfl rfl]
          unfold isGeneratedFileStrict at hdrop ⊢
          unfold getComments
          cases hparse : env.ParseFile issue.FilePath with
          | error e => exact ⟨rfl, rfl⟩
          | ok file =>
            rw [hparse] at hdrop
            have htrue : isGeneratedFileStrictParsed file = true := by simpa using hdrop
            simp [hfile file htrue]

/-- C10 witness: `gen.go` starts with the marker line; the strict processor drops the issue
and so does the lenient one. -/
theorem C10_strict_implies_lax_witness :
    (shouldPassIssue sampleEnv (NewAutogeneratedExclude true) (sampleIssue "govet" "gen.go")).pass = false ∧
    (shouldPassIssue sampleEnv (NewAutogeneratedExclude false) (sampleIssue "govet" "gen.go")).pass = false ∧
    isGeneratedFileLax sampleEnv (commentsDoc testdata.generated_header) = true :=
  ⟨by decide,
   ((C10_strict_implies_lax sampleEnv).2.2 (sampleIssue "govet" "gen.go") (by decide)).1,
   (C10_strict_implies_lax sampleEnv).1 testdata.generated_header (by decide)⟩

end GolangciLint
